import Mathlib

/-!
Verification of the hybrid retrieval engine in
`src/backend/document_processor_vector.py` (class `DocumentProcessor`).

Modelling conventions.  Python strings are `List Char`; float scores are
modelled over `ℚ` (the fusion arithmetic `1/(1+d)`, `0.6*v + 0.4*(b/10)`
is exact over the rationals); the external collaborators (the sentence
transformer, the FAISS nearest-neighbour search and the BM25 scorer of
`rank_bm25`) enter the model as inputs: the FAISS result of one query is a
list of `(distance, position)` pairs and the BM25 scorer output is a list
of rational scores, exactly the shapes the Python code consumes.  File
I/O (upload saving, persistence) is outside the model.
-/

/-- A chunk record, as built in `_extract_and_chunk_pdf` (lines 182-191). -/
structure Chunk where
  id : List Char
  document_id : List Char
  filename : List Char
  page_number : Nat
  chunk_index : Nat
  content : List Char
deriving DecidableEq, Repr, Inhabited

/-- The in-memory state of `DocumentProcessor` that the verified claims
touch: `self.index.ntotal` (FAISS vector count), `self.chunks`,
`self.bm25` presence, and `self.tokenized_chunks`. -/
structure ProcState where
  ntotal : Nat
  chunks : List Chunk
  bm25Built : Bool
  tokenized_chunks : List (List (List Char))
deriving DecidableEq, Repr

/-- The freshly constructed, unpersisted processor state (constructor with
no data on disk): empty FAISS index, no chunks, no BM25 model. -/
def initialState : ProcState := ⟨0, [], false, []⟩

/-! ### Chunker (`_chunk_text`, lines 197-209) -/

/-- Python's `str.strip()`: remove leading and trailing whitespace. -/
def stripChars (s : List Char) : List Char :=
  ((s.dropWhile Char.isWhitespace).reverse.dropWhile Char.isWhitespace).reverse

/-- The `while start < text_length` loop of `_chunk_text`.  The Python loop
advances `start` by `chunk_size - overlap` each iteration and so does not
terminate when `overlap >= chunk_size`; the loop is embedded with a fuel
argument.  When `overlap < chunk_size` the start offset strictly increases
each iteration, so `text.length + 1` fuel is never exhausted. -/
def chunkTextLoop (text : List Char) (chunk_size overlap : Nat) :
    Nat → Nat → List (List Char)
  | 0, _ => []
  | fuel + 1, start =>
    if start < text.length then
      stripChars ((text.drop start).take chunk_size) ::
        chunkTextLoop text chunk_size overlap fuel (start + (chunk_size - overlap))
    else []

/-- `_chunk_text(text, chunk_size, overlap)`: split text into overlapping
windows of `chunk_size` characters, each stripped, the start offset
advancing by `chunk_size - overlap`. -/
def chunk_text (text : List Char) (chunk_size overlap : Nat) : List (List Char) :=
  chunkTextLoop text chunk_size overlap (text.length + 1) 0

/-- The sequence of start offsets visited by the `_chunk_text` loop (the
offsets at which the successive chunks are taken). -/
def chunkStartsLoop (text_length chunk_size overlap : Nat) : Nat → Nat → List Nat
  | 0, _ => []
  | fuel + 1, start =>
    if start < text_length then
      start :: chunkStartsLoop text_length chunk_size overlap fuel (start + (chunk_size - overlap))
    else []

/-- Start offsets of the chunks produced by `_chunk_text` on a text of the
given length. -/
def chunkStarts (text_length chunk_size overlap : Nat) : List Nat :=
  chunkStartsLoop text_length chunk_size overlap (text_length + 1) 0

/-! ### Tokenizer (`_tokenize`, lines 211-215): lowercase, then take the
maximal runs of word characters (`\w+`). -/

/-- A regex `\w` word character: alphanumeric or underscore. -/
def isWordChar (c : Char) : Bool := c.isAlphanum || c = '_'

/-- Accumulator-based splitting of a character list into maximal runs of
word characters (`re.findall(r'\w+', ...)`). -/
def tokenizeAux : List Char → List Char → List (List Char)
  | [], cur => if cur.isEmpty then [] else [cur.reverse]
  | c :: rest, cur =>
    if isWordChar c then tokenizeAux rest (c :: cur)
    else if cur.isEmpty then tokenizeAux rest []
    else cur.reverse :: tokenizeAux rest []

/-- `_tokenize(text)`: lowercase and split on non-alphanumeric runs. -/
def tokenize (text : List Char) : List (List Char) :=
  tokenizeAux (text.map Char.toLower) []

/-! ### Chunk ids (`_extract_and_chunk_pdf`, lines 182-191) -/

/-- The character of a single decimal digit. -/
def digitChar10 : Nat → Char
  | 0 => '0' | 1 => '1' | 2 => '2' | 3 => '3' | 4 => '4'
  | 5 => '5' | 6 => '6' | 7 => '7' | 8 => '8' | 9 => '9'
  | _ => '*'

/-- The decimal numeral of a natural number, as printed by Python's
f-string formatting of an `int`. -/
def natDecimal (n : Nat) : List Char :=
  if n = 0 then ['0'] else ((Nat.digits 10 n).map digitChar10).reverse

/-- The chunk id f-string `f"{doc_id}_page{page_num}_chunk{chunk_idx}"`. -/
def chunkId (doc_id : List Char) (page_num chunk_idx : Nat) : List Char :=
  doc_id ++ ['_', 'p', 'a', 'g', 'e'] ++ natDecimal page_num ++
    ['_', 'c', 'h', 'u', 'n', 'k'] ++ natDecimal chunk_idx

/-- The body of the per-page loop of `_extract_and_chunk_pdf` (lines
176-191): if the page text strips to empty nothing is produced, otherwise
the page text is chunked and each chunk becomes a record. -/
def pageChunkRecords (doc_id filename : List Char) (page_num : Nat)
    (text : List Char) : List Chunk :=
  if stripChars text = [] then []
  else
    (chunk_text text 1000 200).enum.map fun p =>
      { id := chunkId doc_id page_num p.1
        document_id := doc_id
        filename := filename
        page_number := page_num
        chunk_index := p.1
        content := p.2 }

/-- `_extract_and_chunk_pdf`: pages are enumerated starting at 1; PDF text
extraction itself is external, so the model receives the list of page
texts. -/
def extract_and_chunk_pdf (doc_id filename : List Char)
    (pages : List (List Char)) : List Chunk :=
  (pages.enum.map fun p => pageChunkRecords doc_id filename (p.1 + 1) p.2).flatten

/-! ### Ingestion (`process_document`, lines 104-166, and
`_build_bm25_index`, lines 217-227) -/

/-- `_build_bm25_index`: returns unchanged when there are no chunks;
otherwise re-tokenizes every chunk and rebuilds the BM25 model (the
`BM25Okapi` statistics themselves are external; the model records that a
BM25 model is now present). -/
def build_bm25_index (st : ProcState) : ProcState :=
  if st.chunks.isEmpty then st
  else { st with
    tokenized_chunks := st.chunks.map fun c => tokenize c.content
    bm25Built := true }

/-- The result dictionary of `process_document`; `error = true` is the
early return `"No text extracted from PDF"`. -/
structure IngestResult where
  document_id : List Char
  filename : List Char
  chunks_count : Nat
  error : Bool
deriving DecidableEq, Repr

/-- `process_document`: the document id is the md5 hex digest of the
filename (an external deterministic hash, passed in as `md5`); the PDF's
page texts are the external extraction result.  Embedding generation is
the external collaborator `encode`, which returns one vector per input
text (spec §6), so a successful `self.index.add` grows `ntotal` by the
number of chunks.  File saving and persistence are I/O, outside the
model. -/
def process_document (md5 : List Char → List Char) (st : ProcState)
    (filename : List Char) (pages : List (List Char)) :
    ProcState × IngestResult :=
  let doc_id := md5 filename
  let text_chunks := extract_and_chunk_pdf doc_id filename pages
  if text_chunks.isEmpty then
    (st, ⟨doc_id, filename, 0, true⟩)
  else
    let st1 : ProcState :=
      { st with
        ntotal := st.ntotal + text_chunks.length
        chunks := st.chunks ++ text_chunks }
    (build_bm25_index st1, ⟨doc_id, filename, text_chunks.length, false⟩)

/-! ### Hybrid search (`search_documents`, lines 229-299) -/

/-- One value of the `combined_results` dictionary (lines 257-262): the
chunk at a position together with its attached scores. -/
structure ScoredEntry where
  pos : Nat
  chunk : Chunk
  score : ℚ
  vector_score : ℚ
  bm25_score : ℚ
deriving DecidableEq, Repr

/-- `vector_score = 1 / (1 + dist)` (line 251). -/
def vectorScore (dist : ℚ) : ℚ := 1 / (1 + dist)

/-- The guarded BM25 lookup of line 252: `bm25_scores[idx]` when the score
sequence is non-empty and the position is in range, else `0.0`. -/
def bm25Lookup (bm25_scores : List ℚ) (idx : Nat) : ℚ :=
  if 0 < bm25_scores.length ∧ idx < bm25_scores.length then
    bm25_scores.getD idx 0
  else 0

/-- The weighted fusion of line 255:
`0.6 * vector_score + 0.4 * (bm25_score / 10.0 if bm25_score > 0.0 else 0.0)`. -/
def combinedScore (vector_score bm25_score : ℚ) : ℚ :=
  6/10 * vector_score + 4/10 * (if 0 < bm25_score then bm25_score / 10 else 0)

/-- Python dict assignment `combined_results[int(idx)] = value`: if the key
is already present its value is replaced in place (insertion order is
unchanged), otherwise the pair is appended. -/
def dictUpsert (acc : List ScoredEntry) (e : ScoredEntry) : List ScoredEntry :=
  if acc.any fun x => x.pos = e.pos then
    acc.map fun x => if x.pos = e.pos then e else x
  else acc ++ [e]

/-- The body of the `for dist, idx in zip(distances[0], indices[0])` loop
(lines 249-262), guarded by `idx < len(self.chunks)`. -/
def addCandidate (chunks : List Chunk) (bm25_scores : List ℚ)
    (acc : List ScoredEntry) (dist : ℚ) (idx : Nat) : List ScoredEntry :=
  if idx < chunks.length then
    let vector_score := vectorScore dist
    let bm25_score := bm25Lookup bm25_scores idx
    dictUpsert acc
      { pos := idx
        chunk := chunks.getD idx default
        score := combinedScore vector_score bm25_score
        vector_score := vector_score
        bm25_score := bm25_score }
  else acc

/-- The `combined_results` dictionary after the vector-result loop, in
insertion order. -/
def combinedResults (chunks : List Chunk) (bm25_scores : List ℚ)
    (vecResults : List (ℚ × Nat)) : List ScoredEntry :=
  vecResults.foldl (fun acc p => addCandidate chunks bm25_scores acc p.1 p.2) []

/-- The ordering realized by line 265's
`sorted(combined_results.items(), key=lambda x: x[1]['score'], reverse=True)`:
Python's sort is stable, so on entries tagged with their retrieval rank it
orders by descending combined score, ties by ascending rank. -/
def retrievalLE (a b : Nat × ScoredEntry) : Prop :=
  b.2.score < a.2.score ∨ (a.2.score = b.2.score ∧ a.1 ≤ b.1)

instance : DecidableRel retrievalLE := fun a b => by
  unfold retrievalLE; infer_instance

instance : IsTotal (Nat × ScoredEntry) retrievalLE where
  total a b := by
    unfold retrievalLE
    rcases lt_trichotomy a.2.score b.2.score with h | h | h
    · exact Or.inr (Or.inl h)
    · rcases Nat.le_total a.1 b.1 with h1 | h1
      · exact Or.inl (Or.inr ⟨h, h1⟩)
      · exact Or.inr (Or.inr ⟨h.symm, h1⟩)
    · exact Or.inl (Or.inl h)

instance : IsTrans (Nat × ScoredEntry) retrievalLE where
  trans a b c hab hbc := by
    unfold retrievalLE at hab hbc ⊢
    rcases hab with h1 | ⟨h1, h1r⟩ <;> rcases hbc with h2 | ⟨h2, h2r⟩
    · exact Or.inl (h2.trans h1)
    · exact Or.inl (h2 ▸ h1)
    · exact Or.inl (h1 ▸ h2)
    · exact Or.inr ⟨h1.trans h2, h1r.trans h2r⟩

/-- The search filters (`filters.get(...)` keys).  `none` models both an
absent key and a Python-falsy value of the corresponding type where that
distinction cannot arise (`page_range`: an absent or empty list). -/
structure Filters where
  document : Option (List Char)
  page_range : Option (Int × Int)
  min_confidence : Option ℚ
deriving DecidableEq, Repr

/-- The three `continue` guards of lines 272-289.  Presence of a filter is
tested by Python truthiness: an empty `document` string and a zero
`min_confidence` are falsy, so those filters are skipped. -/
def passesFilters (fs : Filters) (score : ℚ) (c : Chunk) : Bool :=
  (match fs.document with
   | some d => if d = [] then true else c.filename = d
   | none => true) &&
  (match fs.page_range with
   | some pr => decide (pr.1 ≤ (c.page_number : Int) ∧ (c.page_number : Int) ≤ pr.2)
   | none => true) &&
  (match fs.min_confidence with
   | some m => if m = 0 then true else decide (m ≤ score)
   | none => true)

/-- The result-collection loop of lines 268-297: walk the (rank-tagged)
sorted candidates, keep those passing the filters, and break as soon as
`top_k` results have been collected. -/
def walkResults (fs : Filters) (top_k : Nat) (acc : List (Nat × ScoredEntry)) :
    List (Nat × ScoredEntry) → List (Nat × ScoredEntry)
  | [] => acc
  | e :: rest =>
    if passesFilters fs e.2.score e.2.chunk then
      if top_k ≤ acc.length + 1 then acc ++ [e]
      else walkResults fs top_k (acc ++ [e]) rest
    else walkResults fs top_k acc rest

/-- The effective `bm25_scores` of lines 240-243: the scorer runs only
when `self.bm25` is present, else the list stays empty. -/
def effBm25 (st : ProcState) (bm25_raw : List ℚ) : List ℚ :=
  if st.bm25Built then bm25_raw else []

/-- The deduplicated candidates of one search, tagged with their retrieval
rank and sorted as line 265 does. -/
def sortedCandidates (st : ProcState) (bm25_raw : List ℚ)
    (vecResults : List (ℚ × Nat)) : List (Nat × ScoredEntry) :=
  List.insertionSort retrievalLE (combinedResults st.chunks (effBm25 st bm25_raw) vecResults).enum

/-- `search_documents`, with the entries still carrying their retrieval
rank.  `vecResults` is the external FAISS answer
`zip(distances[0], indices[0])` for the query embedding and `bm25_raw` the
external `self.bm25.get_scores(...)` answer. -/
def searchRanked (st : ProcState) (vecResults : List (ℚ × Nat))
    (bm25_raw : List ℚ) (top_k : Nat) (fs : Filters) : List (Nat × ScoredEntry) :=
  if st.ntotal = 0 then []
  else walkResults fs top_k [] ((sortedCandidates st bm25_raw vecResults).take (top_k * 2))

/-- `search_documents` (lines 229-299): the returned annotated chunks, in
order. -/
def search_documents (st : ProcState) (vecResults : List (ℚ × Nat))
    (bm25_raw : List ℚ) (top_k : Nat) (fs : Filters) : List ScoredEntry :=
  (searchRanked st vecResults bm25_raw top_k fs).map Prod.snd

/-! ### Helper lemmas about the search pipeline -/

lemma mem_dictUpsert {acc : List ScoredEntry} {e x : ScoredEntry}
    (h : x ∈ dictUpsert acc e) : x ∈ acc ∨ x = e := by
  unfold dictUpsert at h
  split at h
  · rcases List.mem_map.mp h with ⟨y, hy, hxy⟩
    by_cases hpos : y.pos = e.pos
    · simp [hpos] at hxy; exact Or.inr hxy.symm
    · simp [hpos] at hxy; exact Or.inl (hxy ▸ hy)
  · rcases List.mem_append.mp h with hx | hx
    · exact Or.inl hx
    · exact Or.inr (List.mem_singleton.mp hx)

lemma nodup_pos_dictUpsert {acc : List ScoredEntry} {e : ScoredEntry}
    (h : (acc.map ScoredEntry.pos).Nodup) :
    ((dictUpsert acc e).map ScoredEntry.pos).Nodup := by
  unfold dictUpsert
  split
  · have hmap : (acc.map fun x => if x.pos = e.pos then e else x).map ScoredEntry.pos
        = acc.map ScoredEntry.pos := by
      rw [List.map_map]
      refine List.map_congr_left fun x _ => ?_
      by_cases hx : x.pos = e.pos <;> simp [hx]
    rw [hmap]; exact h
  · next hany =>
    have hni : e.pos ∉ acc.map ScoredEntry.pos := by
      intro hmem
      rcases List.mem_map.mp hmem with ⟨y, hy, hpy⟩
      exact hany (List.any_eq_true.mpr ⟨y, hy, by simp [hpy]⟩)
    simp only [List.map_append, List.map_cons, List.map_nil]
    simp [List.nodup_append, h, hni]

lemma nodup_pos_addCandidate {chunks : List Chunk} {scores : List ℚ}
    {acc : List ScoredEntry} {d : ℚ} {i : Nat}
    (h : (acc.map ScoredEntry.pos).Nodup) :
    ((addCandidate chunks scores acc d i).map ScoredEntry.pos).Nodup := by
  unfold addCandidate
  split
  · exact nodup_pos_dictUpsert h
  · exact h

lemma nodup_pos_combinedResults (chunks : List Chunk) (scores : List ℚ)
    (vec : List (ℚ × Nat)) :
    ((combinedResults chunks scores vec).map ScoredEntry.pos).Nodup := by
  unfold combinedResults
  suffices h : ∀ (l : List (ℚ × Nat)) (acc : List ScoredEntry),
      (acc.map ScoredEntry.pos).Nodup →
      ((l.foldl (fun acc p => addCandidate chunks scores acc p.1 p.2) acc).map
        ScoredEntry.pos).Nodup by
    exact h vec [] (by simp)
  intro l
  induction l with
  | nil => exact fun acc h => h
  | cons p t ih => exact fun acc h => ih _ (nodup_pos_addCandidate h)

/-- What line 249-262 of `search_documents` guarantees about every entry of
the `combined_results` dictionary: it came from a vector-search pair
`(d, pos)` and carries exactly the scores computed there. -/
def entrySpec (chunks : List Chunk) (scores : List ℚ) (vec : List (ℚ × Nat))
    (x : ScoredEntry) : Prop :=
  ∃ d, (d, x.pos) ∈ vec ∧
    x.vector_score = vectorScore d ∧
    x.bm25_score = bm25Lookup scores x.pos ∧
    x.score = combinedScore x.vector_score x.bm25_score ∧
    x.chunk = chunks.getD x.pos default

lemma entrySpec_addCandidate {chunks : List Chunk} {scores : List ℚ}
    {vec : List (ℚ × Nat)} {acc : List ScoredEntry} {d : ℚ} {i : Nat}
    (hin : (d, i) ∈ vec)
    (hacc : ∀ y ∈ acc, entrySpec chunks scores vec y) :
    ∀ x ∈ addCandidate chunks scores acc d i, entrySpec chunks scores vec x := by
  intro x hx
  unfold addCandidate at hx
  split at hx
  · rcases mem_dictUpsert hx with hx | hx
    · exact hacc x hx
    · subst hx
      exact ⟨d, hin, rfl, rfl, rfl, rfl⟩
  · exact hacc x hx

lemma entrySpec_combinedResults {chunks : List Chunk} {scores : List ℚ}
    {vec : List (ℚ × Nat)} :
    ∀ x ∈ combinedResults chunks scores vec, entrySpec chunks scores vec x := by
  unfold combinedResults
  suffices h : ∀ (l : List (ℚ × Nat)) (acc : List ScoredEntry),
      (∀ p ∈ l, p ∈ vec) → (∀ y ∈ acc, entrySpec chunks scores vec y) →
      ∀ x ∈ l.foldl (fun acc p => addCandidate chunks scores acc p.1 p.2) acc,
        entrySpec chunks scores vec x by
    exact h vec [] (fun p hp => hp) (by simp)
  intro l
  induction l with
  | nil => exact fun acc _ hacc => hacc
  | cons p t ih =>
    intro acc hl hacc
    exact ih _ (fun q hq => hl q (List.mem_cons_of_mem p hq))
      (entrySpec_addCandidate (hl p (List.mem_cons_self p t)) hacc)

lemma walkResults_sublist (fs : Filters) (top_k : Nat) :
    ∀ (l acc : List (Nat × ScoredEntry)),
      List.Sublist (walkResults fs top_k acc l) (acc ++ l) := by
  intro l
  induction l with
  | nil => intro acc; simp [walkResults]
  | cons e t ih =>
    intro acc
    unfold walkResults
    split
    · split
      · exact (List.Sublist.cons₂ e (List.nil_sublist t)).append_left acc
      · have h := ih (acc ++ [e])
        rwa [List.append_assoc, List.singleton_append] at h
    · exact (ih acc).trans ((List.sublist_cons_self e t).append_left acc)

lemma walkResults_length (fs : Filters) (top_k : Nat) :
    ∀ (l acc : List (Nat × ScoredEntry)), acc.length < top_k →
      (walkResults fs top_k acc l).length ≤ top_k := by
  intro l
  induction l with
  | nil => intro acc h; exact Nat.le_of_lt h
  | cons e t ih =>
    intro acc h
    unfold walkResults
    split
    · split
      · next hstop => simpa using h
      · next hstop => exact ih _ (by simp; omega)
    · exact ih _ h

lemma walkResults_mem (fs : Filters) (top_k : Nat) :
    ∀ (l acc : List (Nat × ScoredEntry)) (x : Nat × ScoredEntry),
      x ∈ walkResults fs top_k acc l →
      x ∈ acc ∨ passesFilters fs x.2.score x.2.chunk = true := by
  intro l
  induction l with
  | nil => intro acc x h; exact Or.inl h
  | cons e t ih =>
    intro acc x h
    unfold walkResults at h
    split at h
    · next hpass =>
      split at h
      · rcases List.mem_append.mp h with hx | hx
        · exact Or.inl hx
        · exact Or.inr (List.mem_singleton.mp hx ▸ hpass)
      · rcases ih _ x h with hx | hx
        · rcases List.mem_append.mp hx with hx | hx
          · exact Or.inl hx
          · exact Or.inr (List.mem_singleton.mp hx ▸ hpass)
        · exact Or.inr hx
    · exact ih _ x h

/-- Descending combined score, ties by ascending retrieval rank: the strict
order in which line 265's stable sort lays out the (rank-tagged)
deduplicated candidates. -/
def strictDesc (a b : Nat × ScoredEntry) : Prop :=
  b.2.score < a.2.score ∨ (a.2.score = b.2.score ∧ a.1 < b.1)

lemma perm_sortedCandidates (st : ProcState) (bm25_raw : List ℚ)
    (vec : List (ℚ × Nat)) :
    List.Perm (sortedCandidates st bm25_raw vec)
      (combinedResults st.chunks (effBm25 st bm25_raw) vec).enum :=
  List.perm_insertionSort retrievalLE _

lemma pairwise_strictDesc_sortedCandidates (st : ProcState) (bm25_raw : List ℚ)
    (vec : List (ℚ × Nat)) :
    (sortedCandidates st bm25_raw vec).Pairwise strictDesc := by
  have hs : (sortedCandidates st bm25_raw vec).Pairwise retrievalLE :=
    List.sorted_insertionSort retrievalLE _
  have hperm := perm_sortedCandidates st bm25_raw vec
  have hfst : ((sortedCandidates st bm25_raw vec).map Prod.fst).Nodup := by
    have := (hperm.map Prod.fst).nodup_iff
    rw [this, List.enum_map_fst]
    exact List.nodup_range _
  have hne : (sortedCandidates st bm25_raw vec).Pairwise
      fun a b => a.1 ≠ b.1 := List.pairwise_map.mp hfst
  refine (hs.and hne).imp ?_
  rintro a b ⟨hle, hab⟩
  rcases hle with h | ⟨h1, h2⟩
  · exact Or.inl h
  · exact Or.inr ⟨h1, Nat.lt_of_le_of_ne h2 hab⟩

lemma nodup_pos_sortedCandidates (st : ProcState) (bm25_raw : List ℚ)
    (vec : List (ℚ × Nat)) :
    ((sortedCandidates st bm25_raw vec).map fun p => p.2.pos).Nodup := by
  have hperm := (perm_sortedCandidates st bm25_raw vec).map fun p => p.2.pos
  rw [hperm.nodup_iff]
  have h2 : ((combinedResults st.chunks (effBm25 st bm25_raw) vec).enum.map
      fun p => p.2.pos)
      = (combinedResults st.chunks (effBm25 st bm25_raw) vec).map ScoredEntry.pos := by
    have : ((combinedResults st.chunks (effBm25 st bm25_raw) vec).enum.map Prod.snd).map
        ScoredEntry.pos
        = (combinedResults st.chunks (effBm25 st bm25_raw) vec).map ScoredEntry.pos := by
      rw [List.enum_map_snd]
    rw [List.map_map] at this
    exact this
  rw [h2]
  exact nodup_pos_combinedResults _ _ _

lemma searchRanked_sublist (st : ProcState) (vec : List (ℚ × Nat))
    (bm25_raw : List ℚ) (top_k : Nat) (fs : Filters) :
    List.Sublist (searchRanked st vec bm25_raw top_k fs)
      ((sortedCandidates st bm25_raw vec).take (top_k * 2)) := by
  unfold searchRanked
  split
  · exact List.nil_sublist _
  · simpa using walkResults_sublist fs top_k
      ((sortedCandidates st bm25_raw vec).take (top_k * 2)) []

lemma searchRanked_mem_spec (st : ProcState) (vec : List (ℚ × Nat))
    (bm25_raw : List ℚ) (top_k : Nat) (fs : Filters) :
    ∀ x ∈ searchRanked st vec bm25_raw top_k fs,
      entrySpec st.chunks (effBm25 st bm25_raw) vec x.2 := by
  intro x hx
  have hsort : x ∈ sortedCandidates st bm25_raw vec :=
    (List.take_sublist _ _).mem ((searchRanked_sublist st vec bm25_raw top_k fs).mem hx)
  have henum : x ∈ (combinedResults st.chunks (effBm25 st bm25_raw) vec).enum :=
    (perm_sortedCandidates st bm25_raw vec).mem_iff.mp hsort
  have hmem : x.2 ∈ combinedResults st.chunks (effBm25 st bm25_raw) vec := by
    have := List.mem_map_of_mem Prod.snd henum
    rwa [List.enum_map_snd] at this
  exact entrySpec_combinedResults x.2 hmem

lemma walkResults_congr {fs1 fs2 : Filters} (top_k : Nat)
    (h : ∀ s c, passesFilters fs1 s c = passesFilters fs2 s c) :
    ∀ (l acc : List (Nat × ScoredEntry)),
      walkResults fs1 top_k acc l = walkResults fs2 top_k acc l := by
  intro l
  induction l with
  | nil => intro acc; rfl
  | cons e t ih =>
    intro acc
    unfold walkResults
    rw [h e.2.score e.2.chunk]
    split
    · split
      · rfl
      · exact ih (acc ++ [e])
    · exact ih acc

lemma search_documents_congr {fs1 fs2 : Filters} (st : ProcState)
    (vec : List (ℚ × Nat)) (bm25_raw : List ℚ) (top_k : Nat)
    (h : ∀ s c, passesFilters fs1 s c = passesFilters fs2 s c) :
    search_documents st vec bm25_raw top_k fs1
      = search_documents st vec bm25_raw top_k fs2 := by
  unfold search_documents searchRanked
  split
  · rfl
  · rw [walkResults_congr top_k h]

lemma combinedScore_nonneg (d b : ℚ) (hd : 0 ≤ d) :
    0 ≤ combinedScore (vectorScore d) b := by
  unfold combinedScore vectorScore
  have h1 : (0 : ℚ) < 1 + d := by linarith
  have hv : (0 : ℚ) ≤ 1 / (1 + d) := le_of_lt (by positivity)
  have hbt : (0 : ℚ) ≤ if 0 < b then b / 10 else 0 := by
    split
    · next hb => linarith
    · exact le_refl 0
  linarith

/-! ### The claims -/

/-- Claim C6: for every query, top_k and filters, if the vector index holds
zero vectors then `search_documents` returns an empty sequence immediately
and does not raise an error. -/
theorem claim_C6_empty_index (st : ProcState) (vec : List (ℚ × Nat))
    (bm25_raw : List ℚ) (top_k : Nat) (fs : Filters)
    (h : st.ntotal = 0) :
    search_documents st vec bm25_raw top_k fs = [] := by
  unfold search_documents searchRanked
  simp [h]

/-- Witness for C6 at the freshly constructed state. -/
theorem claim_C6_witness :
    initialState.ntotal = 0 ∧
      search_documents initialState [(1, 0)] [] 5 ⟨none, none, none⟩ = [] :=
  ⟨rfl, claim_C6_empty_index initialState [(1, 0)] [] 5 ⟨none, none, none⟩ rfl⟩

/-- Claim C7: for two candidates with identical `bm25_score`, the one with
strictly smaller vector distance has a strictly higher `combined_score`
(the fusion is strictly monotone decreasing in distance at fixed BM25
score).  Distances are FAISS (squared) L2 distances, hence nonnegative. -/
theorem claim_C7_score_monotone (d1 d2 b : ℚ) (h0 : 0 ≤ d1) (h12 : d1 < d2) :
    combinedScore (vectorScore d2) b < combinedScore (vectorScore d1) b := by
  have h1 : (0 : ℚ) < 1 + d1 := by linarith
  have hv : 1 / (1 + d2) < 1 / (1 + d1) :=
    one_div_lt_one_div_of_lt h1 (by linarith)
  unfold combinedScore vectorScore
  have hb : (4 : ℚ)/10 * (if 0 < b then b / 10 else 0)
      = 4/10 * (if 0 < b then b / 10 else 0) := rfl
  linarith [hv]

/-- Witness for C7 at distances 0 < 1 and BM25 score 0. -/
theorem claim_C7_witness :
    (0 : ℚ) ≤ 0 ∧ (0 : ℚ) < 1 ∧
      combinedScore (vectorScore 1) 0 < combinedScore (vectorScore 0) 0 :=
  ⟨le_refl 0, by norm_num,
    claim_C7_score_monotone 0 1 0 (le_refl 0) (by norm_num)⟩

/-- Claim C10: filter presence is tested by Python truthiness, so a
`min_confidence` of `0.0` and an empty-string `document` filter each leave
the result exactly equal to the search without that filter. -/
theorem claim_C10_falsy_filters_disabled (st : ProcState)
    (vec : List (ℚ × Nat)) (bm25_raw : List ℚ) (top_k : Nat)
    (doc : Option (List Char)) (pr : Option (Int × Int)) (mc : Option ℚ) :
    search_documents st vec bm25_raw top_k ⟨doc, pr, some 0⟩
        = search_documents st vec bm25_raw top_k ⟨doc, pr, none⟩ ∧
      search_documents st vec bm25_raw top_k ⟨some [], pr, mc⟩
        = search_documents st vec bm25_raw top_k ⟨none, pr, mc⟩ := by
  constructor
  · exact search_documents_congr st vec bm25_raw top_k fun s c => by
      simp [passesFilters]
  · exact search_documents_congr st vec bm25_raw top_k fun s c => by
      simp [passesFilters]

/-- Claim C3: the returned sequence contains each chunk position at most
once, is sorted descending by combined score with ties broken by original
retrieval order (the rank-tagged form is pairwise `strictDesc`), is drawn
from at most `top_k * 2` candidates of the sorted deduplicated list, and
has length at most `top_k`. -/
theorem claim_C3_result_shape (st : ProcState) (vec : List (ℚ × Nat))
    (bm25_raw : List ℚ) (top_k : Nat) (fs : Filters) :
    ((search_documents st vec bm25_raw top_k fs).map ScoredEntry.pos).Nodup ∧
    (search_documents st vec bm25_raw top_k fs).length ≤ top_k ∧
    (searchRanked st vec bm25_raw top_k fs).Pairwise strictDesc ∧
    List.Sublist (searchRanked st vec bm25_raw top_k fs)
      ((sortedCandidates st bm25_raw vec).take (top_k * 2)) := by
  have hsub := searchRanked_sublist st vec bm25_raw top_k fs
  have hmap : (search_documents st vec bm25_raw top_k fs).map ScoredEntry.pos
      = (searchRanked st vec bm25_raw top_k fs).map fun p => p.2.pos := by
    unfold search_documents
    rw [List.map_map]
    rfl
  refine ⟨?_, ?_, ?_, hsub⟩
  · rw [hmap]
    exact (nodup_pos_sortedCandidates st bm25_raw vec).sublist
      ((hsub.trans (List.take_sublist _ _)).map _)
  · have hlen : (search_documents st vec bm25_raw top_k fs).length
        = (searchRanked st vec bm25_raw top_k fs).length := by
      unfold search_documents; rw [List.length_map]
    rw [hlen]
    unfold searchRanked
    split
    · simp
    · rcases Nat.eq_zero_or_pos top_k with h0 | hpos
      · subst h0; simp [walkResults]
      · exact walkResults_length fs top_k _ [] (by simpa using hpos)
  · exact (pairwise_strictDesc_sortedCandidates st bm25_raw vec).sublist
      (hsub.trans (List.take_sublist _ _))

/-- Claim C2: every returned candidate carries
`vector_score = 1 / (1 + d)` for its vector-search distance `d`,
`combined_score = 0.6 * vector_score + 0.4 * (bm25/10 if bm25 > 0 else 0)`,
and a BM25 score looked up positionally, `0.0` when the keyword index is
absent or the position is out of range of the score sequence. -/
theorem claim_C2_score_formula (st : ProcState) (vec : List (ℚ × Nat))
    (bm25_raw : List ℚ) (top_k : Nat) (fs : Filters) :
    ∀ x ∈ search_documents st vec bm25_raw top_k fs,
      ∃ d, (d, x.pos) ∈ vec ∧
        x.vector_score = vectorScore d ∧
        x.bm25_score = bm25Lookup (effBm25 st bm25_raw) x.pos ∧
        x.score = combinedScore x.vector_score x.bm25_score ∧
        (st.bm25Built = false → x.bm25_score = 0) ∧
        ((effBm25 st bm25_raw).length ≤ x.pos → x.bm25_score = 0) := by
  intro x hx
  unfold search_documents at hx
  rcases List.mem_map.mp hx with ⟨p, hp, hpx⟩
  rcases searchRanked_mem_spec st vec bm25_raw top_k fs p hp with
    ⟨d, hd, hv, hb, hs, _⟩
  subst hpx
  refine ⟨d, hd, hv, hb, hs, ?_, ?_⟩
  · intro hbuilt
    rw [hb]
    unfold effBm25
    rw [hbuilt]
    simp [bm25Lookup]
  · intro hrange
    rw [hb]
    unfold bm25Lookup
    rw [if_neg]
    omega

/-- Witness for C2: a one-chunk state without a BM25 model, one vector
candidate at distance 1, yielding `vector_score = 1/2`,
`bm25_score = 0`, `combined_score = 3/10`. -/
theorem claim_C2_witness :
    (⟨0, ⟨['i'], ['d'], ['A'], 1, 0, ['h']⟩, 3/10, 1/2, 0⟩ : ScoredEntry) ∈
      search_documents ⟨1, [⟨['i'], ['d'], ['A'], 1, 0, ['h']⟩], false, []⟩
        [(1, 0)] [] 5 ⟨none, none, none⟩ ∧
    (∃ d, (d, (0 : Nat)) ∈ [((1 : ℚ), (0 : Nat))] ∧
      (1 : ℚ)/2 = vectorScore d ∧
      (0 : ℚ) = bm25Lookup (effBm25 ⟨1, [⟨['i'], ['d'], ['A'], 1, 0, ['h']⟩], false, []⟩ []) 0 ∧
      (3 : ℚ)/10 = combinedScore (1/2) 0 ∧
      ((⟨1, [⟨['i'], ['d'], ['A'], 1, 0, ['h']⟩], false, []⟩ : ProcState).bm25Built = false →
        (0 : ℚ) = 0) ∧
      ((effBm25 ⟨1, [⟨['i'], ['d'], ['A'], 1, 0, ['h']⟩], false, []⟩ []).length ≤ 0 →
        (0 : ℚ) = 0)) :=
  have hmem : (⟨0, ⟨['i'], ['d'], ['A'], 1, 0, ['h']⟩, 3/10, 1/2, 0⟩ : ScoredEntry) ∈
      search_documents ⟨1, [⟨['i'], ['d'], ['A'], 1, 0, ['h']⟩], false, []⟩
        [(1, 0)] [] 5 ⟨none, none, none⟩ := by
    norm_num [search_documents, searchRanked, sortedCandidates, combinedResults,
      addCandidate, dictUpsert, vectorScore, bm25Lookup, combinedScore, effBm25,
      walkResults, passesFilters, List.insertionSort, List.orderedInsert, retrievalLE]
  ⟨hmem,
    claim_C2_score_formula ⟨1, [⟨['i'], ['d'], ['A'], 1, 0, ['h']⟩], false, []⟩
      [(1, 0)] [] 5 ⟨none, none, none⟩
      ⟨0, ⟨['i'], ['d'], ['A'], 1, 0, ['h']⟩, 3/10, 1/2, 0⟩ hmem⟩

/-- Claim C4, amended: every returned chunk matches a present, non-empty
document filter by exact filename; a present page-range filter by an
inclusive page-number bound; and a present minimum-confidence filter by a
combined-score threshold (a zero threshold is Python-falsy and so is
vacuously satisfied: all combined scores are nonnegative when the vector
distances are, as FAISS squared L2 distances are). -/
theorem claim_C4_filter_correct (st : ProcState) (vec : List (ℚ × Nat))
    (bm25_raw : List ℚ) (top_k : Nat) (fs : Filters)
    (hd : ∀ p ∈ vec, 0 ≤ p.1) :
    ∀ x ∈ search_documents st vec bm25_raw top_k fs,
      (∀ doc, fs.document = some doc → doc ≠ [] → x.chunk.filename = doc) ∧
      (∀ pmin pmax, fs.page_range = some (pmin, pmax) →
        pmin ≤ (x.chunk.page_number : Int) ∧ (x.chunk.page_number : Int) ≤ pmax) ∧
      (∀ m, fs.min_confidence = some m → m ≤ x.score) := by
  intro x hx
  unfold search_documents at hx
  rcases List.mem_map.mp hx with ⟨p, hp, hpx⟩
  have hpass : passesFilters fs p.2.score p.2.chunk = true := by
    unfold searchRanked at hp
    split at hp
    · simp at hp
    · rcases walkResults_mem fs top_k _ [] p hp with h | h
      · simp at h
      · exact h
  rcases searchRanked_mem_spec st vec bm25_raw top_k fs p hp with
    ⟨d, hdv, hv, hb, hs, _⟩
  have hnn : 0 ≤ p.2.score := by
    rw [hs, hv]
    exact combinedScore_nonneg d p.2.bm25_score (hd (d, p.2.pos) hdv)
  subst hpx
  unfold passesFilters at hpass
  rw [Bool.and_eq_true, Bool.and_eq_true] at hpass
  obtain ⟨⟨h1, h2⟩, h3⟩ := hpass
  refine ⟨?_, ?_, ?_⟩
  · intro doc hdoc hne
    rw [hdoc] at h1
    simpa [hne] using h1
  · intro pmin pmax hpr
    rw [hpr] at h2
    simpa using h2
  · intro m hm
    rw [hm] at h3
    by_cases hm0 : m = 0
    · rw [hm0]; exact hnn
    · simpa [hm0] using h3

/-- Counterexample to C4 as stated: with the filter
`{document: ""}` present (an empty filename), the truthiness test disables
the filter and a chunk whose filename is `"B"`, not equal to the filter
value, is returned. -/
theorem claim_C4_counterexample :
    ∃ x ∈ search_documents
        ⟨2, [⟨['a'], ['d'], ['A'], 1, 0, ['h']⟩, ⟨['b'], ['d'], ['B'], 2, 0, ['y']⟩],
          false, []⟩
        [(0, 1), (1, 0)] [] 5 ⟨some [], none, none⟩,
      x.chunk.filename ≠ [] := by
  refine ⟨⟨1, ⟨['b'], ['d'], ['B'], 2, 0, ['y']⟩, 3/5, 1, 0⟩, ?_, by decide⟩
  norm_num [search_documents, searchRanked, sortedCandidates, combinedResults,
    addCandidate, dictUpsert, vectorScore, bm25Lookup, combinedScore, effBm25,
    walkResults, passesFilters, List.insertionSort, List.orderedInsert, retrievalLE]

/-- Witness for the amended C4: a two-document state with all three
filters present and non-falsy; the returned chunk matches them all. -/
theorem claim_C4_witness :
    (∀ p ∈ [((0 : ℚ), (1 : Nat)), (1, 0)], 0 ≤ p.1) ∧
    (⟨0, ⟨['a'], ['d'], ['A'], 1, 0, ['h']⟩, 3/10, 1/2, 0⟩ : ScoredEntry) ∈
      search_documents
        ⟨2, [⟨['a'], ['d'], ['A'], 1, 0, ['h']⟩, ⟨['b'], ['d'], ['B'], 2, 0, ['y']⟩],
          false, []⟩
        [(0, 1), (1, 0)] [] 5 ⟨some ['A'], some (1, 2), some (1/10)⟩ ∧
    (⟨0, ⟨['a'], ['d'], ['A'], 1, 0, ['h']⟩, 3/10, 1/2, 0⟩ : ScoredEntry).chunk.filename
      = ['A'] ∧
    ((1 : Int) ≤ ((⟨0, ⟨['a'], ['d'], ['A'], 1, 0, ['h']⟩, 3/10, 1/2, 0⟩ :
        ScoredEntry).chunk.page_number : Int) ∧
      ((⟨0, ⟨['a'], ['d'], ['A'], 1, 0, ['h']⟩, 3/10, 1/2, 0⟩ :
        ScoredEntry).chunk.page_number : Int) ≤ 2) ∧
    (1 : ℚ)/10 ≤ (⟨0, ⟨['a'], ['d'], ['A'], 1, 0, ['h']⟩, 3/10, 1/2, 0⟩ :
        ScoredEntry).score := by
  have hd : ∀ p ∈ [((0 : ℚ), (1 : Nat)), (1, 0)], 0 ≤ p.1 := by
    intro p hp
    fin_cases hp <;> norm_num
  have hmem : (⟨0, ⟨['a'], ['d'], ['A'], 1, 0, ['h']⟩, 3/10, 1/2, 0⟩ : ScoredEntry) ∈
      search_documents
        ⟨2, [⟨['a'], ['d'], ['A'], 1, 0, ['h']⟩, ⟨['b'], ['d'], ['B'], 2, 0, ['y']⟩],
          false, []⟩
        [(0, 1), (1, 0)] [] 5 ⟨some ['A'], some (1, 2), some (1/10)⟩ := by
    norm_num [search_documents, searchRanked, sortedCandidates, combinedResults,
      addCandidate, dictUpsert, vectorScore, bm25Lookup, combinedScore, effBm25,
      walkResults, passesFilters, List.insertionSort, List.orderedInsert, retrievalLE,
      show ('B' : Char) ≠ 'A' from by decide]
  have h := claim_C4_filter_correct
    ⟨2, [⟨['a'], ['d'], ['A'], 1, 0, ['h']⟩, ⟨['b'], ['d'], ['B'], 2, 0, ['y']⟩],
      false, []⟩
    [(0, 1), (1, 0)] [] 5 ⟨some ['A'], some (1, 2), some (1/10)⟩ hd _ hmem
  exact ⟨hd, hmem, h.1 ['A'] rfl (by decide), h.2.1 1 2 rfl, h.2.2 (1/10) rfl⟩

/-- Claim C1: a successful `process_document` (no error, at least one
chunk) leaves the FAISS vector count, the chunk-sequence length and the
tokenized-chunk-sequence length all equal, provided the usual
vector/chunk-count invariant held beforehand. -/
theorem claim_C1_ingestion_invariant (md5 : List Char → List Char)
    (st : ProcState) (filename : List Char) (pages : List (List Char))
    (hpre : st.ntotal = st.chunks.length)
    (hok : (process_document md5 st filename pages).2.error = false) :
    (process_document md5 st filename pages).1.ntotal
        = (process_document md5 st filename pages).1.chunks.length ∧
      (process_document md5 st filename pages).1.chunks.length
        = (process_document md5 st filename pages).1.tokenized_chunks.length := by
  by_cases h : (extract_and_chunk_pdf (md5 filename) filename pages).isEmpty
  · unfold process_document at hok
    simp [h] at hok
  · have hne : ¬ (st.chunks ++ extract_and_chunk_pdf (md5 filename) filename pages).isEmpty := by
      simp only [List.isEmpty_iff] at h ⊢
      simp [h]
    unfold process_document build_bm25_index
    simp only [h, if_false, Bool.false_eq_true, hne, ite_false]
    constructor
    · simp [hpre]
    · simp

/-- Witness for C1: ingesting a one-page document into the fresh state. -/
theorem claim_C1_witness :
    initialState.ntotal = initialState.chunks.length ∧
    (process_document (fun _ => ['d']) initialState ['A'] [['h', 'i']]).2.error = false ∧
    ((process_document (fun _ => ['d']) initialState ['A'] [['h', 'i']]).1.ntotal
        = (process_document (fun _ => ['d']) initialState ['A'] [['h', 'i']]).1.chunks.length ∧
      (process_document (fun _ => ['d']) initialState ['A'] [['h', 'i']]).1.chunks.length
        = (process_document (fun _ => ['d']) initialState ['A']
            [['h', 'i']]).1.tokenized_chunks.length) :=
  ⟨rfl, by decide,
    claim_C1_ingestion_invariant (fun _ => ['d']) initialState ['A'] [['h', 'i']]
      rfl (by decide)⟩

lemma chunkTextLoop_succ (text : List Char) (cs ov f s : Nat) :
    chunkTextLoop text cs ov (f + 1) s
      = if s < text.length then
          stripChars ((text.drop s).take cs) ::
            chunkTextLoop text cs ov f (s + (cs - ov))
        else [] := rfl

lemma chunkStartsLoop_succ (L cs ov f s : Nat) :
    chunkStartsLoop L cs ov (f + 1) s
      = if s < L then s :: chunkStartsLoop L cs ov f (s + (cs - ov))
        else [] := rfl

lemma stripChars_replicate_A (n : Nat) :
    stripChars (List.replicate n 'A') = List.replicate n 'A' := by
  have h : ∀ m, (List.replicate m 'A').dropWhile Char.isWhitespace
      = List.replicate m 'A' := by
    intro m
    cases m with
    | zero => rfl
    | succ k =>
      rw [List.replicate_succ, List.dropWhile_cons]
      simp [show Char.isWhitespace 'A' = false from by decide]
  unfold stripChars
  rw [h, List.reverse_replicate, h, List.reverse_replicate]

lemma chunk_text_replicate_2500 :
    chunk_text (List.replicate 2500 'A') 1000 200
        = [List.replicate 1000 'A', List.replicate 1000 'A',
            List.replicate 900 'A', List.replicate 100 'A'] := by
  unfold chunk_text
  rw [List.length_replicate]
  rw [chunkTextLoop_succ,
    if_pos (by norm_num : (0 : Nat) < (List.replicate 2500 'A').length)]
  rw [show (2500 : Nat) = 2499 + 1 from rfl, chunkTextLoop_succ]
  norm_num [List.drop_replicate, List.take_replicate, stripChars_replicate_A]
  rw [show (2499 : Nat) = 2498 + 1 from rfl, chunkTextLoop_succ]
  norm_num [List.drop_replicate, List.take_replicate, stripChars_replicate_A]
  rw [show (2498 : Nat) = 2497 + 1 from rfl, chunkTextLoop_succ]
  norm_num [List.drop_replicate, List.take_replicate, stripChars_replicate_A]
  rw [show (2497 : Nat) = 2496 + 1 from rfl, chunkTextLoop_succ]
  norm_num

lemma chunkStarts_2500 : chunkStarts 2500 1000 200 = [0, 800, 1600, 2400] := by
  unfold chunkStarts
  rw [chunkStartsLoop_succ]
  norm_num
  rw [show (2500 : Nat) = 2499 + 1 from rfl, chunkStartsLoop_succ]
  norm_num
  rw [show (2499 : Nat) = 2498 + 1 from rfl, chunkStartsLoop_succ]
  norm_num
  rw [show (2498 : Nat) = 2497 + 1 from rfl, chunkStartsLoop_succ]
  norm_num
  rw [show (2497 : Nat) = 2496 + 1 from rfl, chunkStartsLoop_succ]
  norm_num

/-- Counterexample to C5 as stated: chunking 2500 copies of `A` with
`chunk_size=1000` and `overlap=200` yields four chunks, not three. -/
theorem claim_C5_counterexample :
    (chunk_text (List.replicate 2500 'A') 1000 200).length = 4 := by
  rw [chunk_text_replicate_2500]
  rfl

/-- Claim C5, amended: chunking 2500 copies of `A` with `chunk_size=1000`
and `overlap=200` yields exactly 4 chunks, of lengths 1000, 1000, 900 and
100, taken at start offsets 0, 800, 1600 and 2400. -/
theorem claim_C5_chunk_determinism :
    chunk_text (List.replicate 2500 'A') 1000 200
        = [List.replicate 1000 'A', List.replicate 1000 'A',
            List.replicate 900 'A', List.replicate 100 'A'] ∧
      chunkStarts 2500 1000 200 = [0, 800, 1600, 2400] :=
  ⟨chunk_text_replicate_2500, chunkStarts_2500⟩

/-- Counterexample to C8 as stated: on the whitespace-only page text
consisting of one space, `_chunk_text` itself produces one chunk (the
empty string after stripping), not zero chunks. -/
theorem claim_C8_counterexample : chunk_text [' '] 1000 200 = [[]] := by decide

/-- Claim C8, amended: for page text that strips to empty (empty or
whitespace-only), no chunk records are created for that page during
ingestion, because the `if text.strip():` guard skips chunking — although
`_chunk_text` itself, applied to non-empty whitespace-only text, would
return one empty-string chunk. -/
theorem claim_C8_blank_page_no_records (doc_id filename : List Char)
    (page_num : Nat) (text : List Char) (h : stripChars text = []) :
    pageChunkRecords doc_id filename page_num text = [] := by
  unfold pageChunkRecords
  rw [if_pos h]

/-- Witness for the amended C8 at the one-space page text. -/
theorem claim_C8_witness :
    stripChars [' '] = [] ∧ pageChunkRecords ['d'] ['f'] 1 [' '] = [] :=
  ⟨by decide, claim_C8_blank_page_no_records ['d'] ['f'] 1 [' '] (by decide)⟩

/-! ### Chunk id uniqueness (claim C9) -/

lemma digitChar10_ne_underscore {d : Nat} (hd : d < 10) : digitChar10 d ≠ '_' := by
  interval_cases d <;> decide

lemma mem_natDecimal_ne_underscore {n : Nat} {c : Char} (hc : c ∈ natDecimal n) :
    c ≠ '_' := by
  unfold natDecimal at hc
  split at hc
  · rw [List.mem_singleton] at hc
    rw [hc]; decide
  · rw [List.mem_reverse] at hc
    rcases List.mem_map.mp hc with ⟨d, hd, rfl⟩
    exact digitChar10_ne_underscore (Nat.digits_lt_base (by norm_num) hd)

lemma digitChar10_inj {a b : Nat} (ha : a < 10) (hb : b < 10)
    (h : digitChar10 a = digitChar10 b) : a = b := by
  interval_cases a <;> interval_cases b <;> revert h <;> decide

lemma map_digitChar10_inj : ∀ {l1 l2 : List Nat},
    (∀ x ∈ l1, x < 10) → (∀ x ∈ l2, x < 10) →
    l1.map digitChar10 = l2.map digitChar10 → l1 = l2 := by
  intro l1
  induction l1 with
  | nil =>
    intro l2 _ _ h
    cases l2 with
    | nil => rfl
    | cons b t => simp at h
  | cons a t ih =>
    intro l2 h1 h2 h
    cases l2 with
    | nil => simp at h
    | cons b t2 =>
      simp only [List.map_cons, List.cons.injEq] at h
      have ha : a < 10 := h1 a (List.mem_cons_self a t)
      have hb : b < 10 := h2 b (List.mem_cons_self b t2)
      rw [digitChar10_inj ha hb h.1,
        ih (fun x hx => h1 x (List.mem_cons_of_mem a hx))
          (fun x hx => h2 x (List.mem_cons_of_mem b hx)) h.2]

lemma natDecimal_nonzero_ne_singleton_zero {k : Nat} (hk : k ≠ 0) :
    ((Nat.digits 10 k).map digitChar10).reverse ≠ ['0'] := by
  intro h
  have h2 : (Nat.digits 10 k).map digitChar10 = ['0'] := by
    have h3 := congrArg List.reverse h
    simpa using h3
  cases hd : Nat.digits 10 k with
  | nil => rw [hd] at h2; simp at h2
  | cons d t =>
    rw [hd] at h2
    simp only [List.map_cons, List.cons.injEq] at h2
    have ht : t = [] := by simpa using h2.2
    have hdlt : d < 10 :=
      Nat.digits_lt_base (by norm_num) (hd ▸ List.mem_cons_self d t)
    have hd0 : d = 0 := digitChar10_inj hdlt (by norm_num) h2.1
    have hofd := Nat.ofDigits_digits 10 k
    rw [hd, ht, hd0] at hofd
    simp [Nat.ofDigits] at hofd
    exact hk hofd.symm

lemma natDecimal_inj {m n : Nat} (h : natDecimal m = natDecimal n) : m = n := by
  unfold natDecimal at h
  by_cases hm : m = 0 <;> by_cases hn : n = 0
  · rw [hm, hn]
  · rw [if_pos hm, if_neg hn] at h
    exact absurd h.symm (natDecimal_nonzero_ne_singleton_zero hn)
  · rw [if_neg hm, if_pos hn] at h
    exact absurd h (natDecimal_nonzero_ne_singleton_zero hm)
  · rw [if_neg hm, if_neg hn] at h
    have h2 := congrArg List.reverse h
    simp only [List.reverse_reverse] at h2
    have h3 := map_digitChar10_inj
      (fun x hx => Nat.digits_lt_base (by norm_num) hx)
      (fun x hx => Nat.digits_lt_base (by norm_num) hx) h2
    exact Nat.digits_inj_iff.mp h3

lemma split_underscore : ∀ (a1 a2 : List Char) {b1 b2 : List Char},
    (∀ c ∈ a1, c ≠ '_') → (∀ c ∈ a2, c ≠ '_') →
    a1 ++ '_' :: b1 = a2 ++ '_' :: b2 → a1 = a2 ∧ b1 = b2 := by
  intro a1
  induction a1 with
  | nil =>
    intro a2 b1 b2 _ h2 h
    cases a2 with
    | nil => simpa using h
    | cons c t =>
      simp only [List.nil_append, List.cons_append, List.cons.injEq] at h
      exact absurd h.1.symm (h2 c (List.mem_cons_self c t))
  | cons c t ih =>
    intro a2 b1 b2 h1 h2 h
    cases a2 with
    | nil =>
      simp only [List.cons_append, List.nil_append, List.cons.injEq] at h
      exact absurd h.1 (h1 c (List.mem_cons_self c t))
    | cons c2 t2 =>
      simp only [List.cons_append, List.cons.injEq] at h
      obtain ⟨hc, hrest⟩ := h
      obtain ⟨ht, hb⟩ := ih t2
        (fun x hx => h1 x (List.mem_cons_of_mem c hx))
        (fun x hx => h2 x (List.mem_cons_of_mem c2 hx)) hrest
      exact ⟨by rw [hc, ht], hb⟩

lemma chunkId_inj {doc : List Char} {p1 i1 p2 i2 : Nat}
    (h : chunkId doc p1 i1 = chunkId doc p2 i2) : p1 = p2 ∧ i1 = i2 := by
  unfold chunkId at h
  simp only [List.append_assoc] at h
  have h0 := List.append_cancel_left h
  simp only [List.cons_append, List.nil_append, List.cons.injEq, true_and] at h0
  obtain ⟨hp, hrest⟩ := split_underscore (natDecimal p1) (natDecimal p2)
    (fun c hc => mem_natDecimal_ne_underscore hc)
    (fun c hc => mem_natDecimal_ne_underscore hc) h0
  refine ⟨natDecimal_inj hp, ?_⟩
  simp only [List.cons.injEq, true_and] at hrest
  exact natDecimal_inj hrest

lemma ids_pageChunkRecords_blank {doc fn : List Char} {p : Nat} {text : List Char}
    (h : stripChars text = []) :
    (pageChunkRecords doc fn p text).map Chunk.id = [] := by
  unfold pageChunkRecords
  rw [if_pos h]
  rfl

lemma ids_pageChunkRecords_nonblank {doc fn : List Char} {p : Nat} {text : List Char}
    (h : ¬ stripChars text = []) :
    (pageChunkRecords doc fn p text).map Chunk.id
      = (List.range (chunk_text text 1000 200).length).map (chunkId doc p) := by
  unfold pageChunkRecords
  rw [if_neg h, List.map_map]
  have h1 : (Chunk.id ∘ fun q : Nat × List Char =>
      ({ id := chunkId doc p q.1, document_id := doc, filename := fn,
         page_number := p, chunk_index := q.1, content := q.2 } : Chunk))
      = (chunkId doc p) ∘ Prod.fst := rfl
  rw [h1, ← List.map_map, List.enum_map_fst]

lemma nodup_ids_pageChunkRecords (doc fn : List Char) (p : Nat) (text : List Char) :
    ((pageChunkRecords doc fn p text).map Chunk.id).Nodup := by
  by_cases h : stripChars text = []
  · rw [ids_pageChunkRecords_blank h]
    exact List.nodup_nil
  · rw [ids_pageChunkRecords_nonblank h]
    refine (List.nodup_range _).map_on ?_
    intro x _ y _ hxy
    exact (chunkId_inj hxy).2

lemma mem_ids_pageChunkRecords {doc fn : List Char} {p : Nat} {text : List Char}
    {c : List Char} (hc : c ∈ (pageChunkRecords doc fn p text).map Chunk.id) :
    ∃ i, c = chunkId doc p i := by
  by_cases h : stripChars text = []
  · rw [ids_pageChunkRecords_blank h] at hc
    simp at hc
  · rw [ids_pageChunkRecords_nonblank h] at hc
    rcases List.mem_map.mp hc with ⟨i, _, hi⟩
    exact ⟨i, hi.symm⟩

/-- Claim C9, amended: chunk ids are derived deterministically from the
document id, page number and chunk index (each record's id is exactly the
id function applied to its own fields), and the ids produced by a single
ingestion's extraction are pairwise distinct.  Corpus-wide uniqueness
across a sequence of ingestions fails: re-ingesting a file with the same
name appends chunks whose ids duplicate the existing ones. -/
theorem claim_C9_chunk_ids (doc_id filename : List Char)
    (pages : List (List Char)) :
    ((extract_and_chunk_pdf doc_id filename pages).map Chunk.id).Nodup ∧
      ∀ c ∈ extract_and_chunk_pdf doc_id filename pages,
        c.id = chunkId c.document_id c.page_number c.chunk_index := by
  constructor
  · unfold extract_and_chunk_pdf
    rw [List.map_flatten, List.map_map]
    refine List.nodup_flatten.mpr ⟨?_, ?_⟩
    · intro l hl
      rcases List.mem_map.mp hl with ⟨q, _, rfl⟩
      exact nodup_ids_pageChunkRecords doc_id filename (q.1 + 1) q.2
    · rw [List.pairwise_map]
      have hfst : (pages.enum.map Prod.fst).Nodup := by
        rw [List.enum_map_fst]; exact List.nodup_range _
      have hne : pages.enum.Pairwise fun a b => a.1 ≠ b.1 :=
        List.pairwise_map.mp hfst
      refine hne.imp ?_
      intro a b hab
      intro c hca hcb
      rcases mem_ids_pageChunkRecords hca with ⟨i, rfl⟩
      rcases mem_ids_pageChunkRecords hcb with ⟨j, hj⟩
      have hpq := (chunkId_inj hj).1
      exact hab (by omega)
  · intro c hc
    unfold extract_and_chunk_pdf at hc
    rcases List.mem_flatten.mp hc with ⟨l, hl, hcl⟩
    rcases List.mem_map.mp hl with ⟨q, _, rfl⟩
    unfold pageChunkRecords at hcl
    split at hcl
    · simp at hcl
    · rcases List.mem_map.mp hcl with ⟨r, _, rfl⟩
      rfl

/-- Counterexample to C9 as stated: ingesting the same one-page file twice
(same filename, hence the same md5 document id) leaves the corpus chunk
sequence with two chunks bearing the same id. -/
theorem claim_C9_counterexample :
    ¬ (((process_document (fun _ => ['d'])
          (process_document (fun _ => ['d']) initialState ['A'] [['h', 'i']]).1
          ['A'] [['h', 'i']]).1.chunks.map Chunk.id).Nodup) := by
  intro hn
  have h : ((process_document (fun _ => ['d'])
        (process_document (fun _ => ['d']) initialState ['A'] [['h', 'i']]).1
        ['A'] [['h', 'i']]).1.chunks.map Chunk.id)
      = [chunkId ['d'] 1 0, chunkId ['d'] 1 0] := rfl
  rw [h] at hn
  simp [List.nodup_cons] at hn

/-- Witness for the amended C9 on a one-page, one-chunk document. -/
theorem claim_C9_witness :
    ((extract_and_chunk_pdf ['d'] ['f'] [['h']]).map Chunk.id).Nodup ∧
    (⟨chunkId ['d'] 1 0, ['d'], ['f'], 1, 0, ['h']⟩ : Chunk)
        ∈ extract_and_chunk_pdf ['d'] ['f'] [['h']] ∧
    (⟨chunkId ['d'] 1 0, ['d'], ['f'], 1, 0, ['h']⟩ : Chunk).id
      = chunkId ['d'] 1 0 := by
  have hmem : (⟨chunkId ['d'] 1 0, ['d'], ['f'], 1, 0, ['h']⟩ : Chunk)
      ∈ extract_and_chunk_pdf ['d'] ['f'] [['h']] := by
    have he : extract_and_chunk_pdf ['d'] ['f'] [['h']]
        = [⟨chunkId ['d'] 1 0, ['d'], ['f'], 1, 0, ['h']⟩] := rfl
    rw [he]
    exact List.mem_singleton.mpr rfl
  exact ⟨(claim_C9_chunk_ids ['d'] ['f'] [['h']]).1, hmem,
    (claim_C9_chunk_ids ['d'] ['f'] [['h']]).2 _ hmem⟩
